import Mathlib

/-!
Verification of the ABI→dispatch scaffolding core of `cargo-pvm-contract`
(`crates/cargo-pvm-contract/src/scaffold.rs`) against its specification.

The development shallowly embeds the pure core of `scaffold.rs`:
* `keccak256` / `compute_selector` / `build_function_signature`,
* the hex formatting helpers `format_bytes_as_hex` / `format_bytes32_multiline`,
* the two code-generation paths `generate_rust_code_alloc` and
  `generate_rust_code_no_alloc` (modelled up to, but not including, the
  external Askama text renderer: the embedding produces the template *data*
  exactly as the Rust code builds it).

Machine integers are modelled as `Nat` with explicit reduction modulo `2 ^ 64`
(keccak lanes) resp. values below `256` (bytes).  The identifier normalizer
(the external `convert_case` crate) is not part of the repository and is
modelled from the specification's §4.3 rules; those definitions are marked
`Modelled from the spec:` in their doc comments.
-/

namespace PvmScaffold

/-! ## Keccak-256

Embedding of `fn keccak256(input: &str) -> [u8; 32]` (scaffold.rs:143-149),
which hashes the UTF-8 bytes of the input with `tiny_keccak::Keccak::v256()`.
Bytes and 64-bit lanes are `Nat`s kept below `2 ^ 8` resp. `2 ^ 64`.
-/

/-- Left rotation of a 64-bit lane, on `Nat`s below `2 ^ 64`. -/
def rotl64 (x n : Nat) : Nat :=
  ((x <<< n) % (2 ^ 64)) ||| (x >>> (64 - n))

/-- Bitwise complement of a 64-bit lane. -/
def compl64 (x : Nat) : Nat :=
  x ^^^ (2 ^ 64 - 1)

/-- The 24 keccak-f[1600] round constants (decimal values of the standard
iota constants). -/
def keccakRC : List Nat :=
  [1, 32898, 9223372036854808714,
   9223372039002292224, 32907, 2147483649,
   9223372039002292353, 9223372036854808585, 138,
   136, 2147516425, 2147483658,
   2147516555, 9223372036854775947, 9223372036854808713,
   9223372036854808579, 9223372036854808578, 9223372036854775936,
   32778, 9223372039002259466, 9223372039002292353,
   9223372036854808704, 2147483649, 9223372039002292232]

/-- Rotation offsets for the ρ step, one row per `y`; entry `x` of row `y`
is the rotation of lane `x + 5 * y`. -/
def keccakRhoRows : List (List Nat) :=
  [[0, 1, 62, 28, 27],
   [36, 44, 6, 55, 20],
   [3, 10, 43, 25, 39],
   [41, 45, 15, 21, 8],
   [18, 2, 61, 56, 14]]

/-- Rotation offsets for the ρ step, flattened with lane index `x + 5 * y`. -/
def keccakRho : List Nat :=
  keccakRhoRows.flatten

/-- One keccak-f[1600] round (θ, ρ, π, χ, ι) on a 25-lane state. -/
def keccakRound (st : List Nat) (rc : Nat) : List Nat :=
  let get := fun (l : List Nat) (i : Nat) => l.getD i 0
  let c := (List.range 5).map fun x =>
    get st x ^^^ get st (x + 5) ^^^ get st (x + 10) ^^^ get st (x + 15) ^^^ get st (x + 20)
  let d := (List.range 5).map fun x =>
    get c ((x + 4) % 5) ^^^ rotl64 (get c ((x + 1) % 5)) 1
  let a := (List.range 25).map fun i => get st i ^^^ get d (i % 5)
  let b := (List.range 25).map fun i =>
    let x := i % 5
    let y := i / 5
    let src := (x + 3 * y) % 5 + 5 * x
    rotl64 (get a src) (get keccakRho src)
  let chi := (List.range 25).map fun i =>
    let x := i % 5
    let y := i / 5
    get b i ^^^ (compl64 (get b ((x + 1) % 5 + 5 * y)) &&& get b ((x + 2) % 5 + 5 * y))
  (List.range 25).map fun i => if i = 0 then get chi 0 ^^^ rc else get chi i

/-- The full keccak-f[1600] permutation: 24 rounds. -/
def keccakF (st : List Nat) : List Nat :=
  keccakRC.foldl keccakRound st

/-- Multi-rate padding for the keccak (pre-SHA-3, domain bit `0x01`) sponge
with rate 136 bytes, as performed by `tiny_keccak` for `Keccak::v256()`. -/
def keccakPad (msg : List Nat) : List Nat :=
  let padLen := 136 - msg.length % 136
  if padLen = 1 then msg ++ [0x81]
  else msg ++ [0x01] ++ List.replicate (padLen - 2) 0 ++ [0x80]

/-- Split a list into chunks of `n` elements (last chunk may be shorter). -/
def chunksOfAux (n : Nat) : Nat → List α → List (List α)
  | 0, _ => []
  | _, [] => []
  | fuel + 1, xs => xs.take n :: chunksOfAux n fuel (xs.drop n)

/-- Split a list into chunks of `n` elements (last chunk may be shorter). -/
def chunksOf (n : Nat) (xs : List α) : List (List α) :=
  chunksOfAux n xs.length xs

/-- Interpret 8 bytes as a little-endian 64-bit lane. -/
def laneOfBytes (bytes : List Nat) : Nat :=
  bytes.foldr (fun b acc => b + 256 * acc) 0

/-- The 8 little-endian bytes of a 64-bit lane. -/
def laneBytes (lane : Nat) : List Nat :=
  (List.range 8).map fun k => (lane >>> (8 * k)) % 256

/-- Absorb one 136-byte block into the sponge state and permute. -/
def keccakAbsorbBlock (st : List Nat) (block : List Nat) : List Nat :=
  let lanes := (chunksOf 8 block).map laneOfBytes
  keccakF ((List.range 25).map fun i => st.getD i 0 ^^^ lanes.getD i 0)

/-- UTF-8 encoding of one unicode scalar value. -/
def utf8Bytes (c : Char) : List Nat :=
  let n := c.toNat
  if n < 0x80 then [n]
  else if n < 0x800 then
    [0xC0 ||| (n >>> 6), 0x80 ||| (n &&& 0x3F)]
  else if n < 0x10000 then
    [0xE0 ||| (n >>> 12), 0x80 ||| ((n >>> 6) &&& 0x3F), 0x80 ||| (n &&& 0x3F)]
  else
    [0xF0 ||| (n >>> 18), 0x80 ||| ((n >>> 12) &&& 0x3F),
     0x80 ||| ((n >>> 6) &&& 0x3F), 0x80 ||| (n &&& 0x3F)]

/-- The UTF-8 bytes of a string (`input.as_bytes()` in Rust). -/
def strBytes (s : String) : List Nat :=
  (s.data.map utf8Bytes).flatten

/-- Embedding of `fn keccak256(input: &str) -> [u8; 32]` (scaffold.rs:143-149):
the keccak-256
of the UTF-8 bytes of `input`, as a list of 32 bytes. -/
def keccak256 (input : String) : List Nat :=
  let st0 : List Nat := List.replicate 25 0
  let st := (chunksOf 136 (keccakPad (strBytes input))).foldl keccakAbsorbBlock st0
  ((st.take 4).map laneBytes).flatten

/-- Embedding of `fn compute_selector(signature: &str) -> [u8; 4]`
(scaffold.rs:152-155):
`[hash[0], hash[1], hash[2], hash[3]]` of the keccak-256 hash. -/
def compute_selector (signature : String) : List Nat :=
  let hash := keccak256 signature
  [hash.getD 0 0, hash.getD 1 0, hash.getD 2 0, hash.getD 3 0]

/-! ## ABI model

Embedding of the `AbiItem` / `AbiInput` deserialization targets
(scaffold.rs:101-140).  Fields that the generators never read
(`outputs`, `state_mutability`, `indexed`) are kept for faithfulness.
-/

/-- One ABI input parameter (`struct AbiInput`, scaffold.rs:125-132). -/
structure AbiInput where
  name : String
  type_name : String
  indexed : Option Bool
deriving Repr, DecidableEq

/-- One ABI output parameter (`struct AbiOutput`, scaffold.rs:134-140). -/
structure AbiOutput where
  name : String
  type_name : String
deriving Repr, DecidableEq

/-- One ABI item (`enum AbiItem`, scaffold.rs:101-123). -/
inductive AbiItem where
  | function (name : String) (inputs : List AbiInput) (outputs : List AbiOutput)
      (state_mutability : String)
  | event (name : String) (inputs : List AbiInput)
  | error (name : String) (inputs : List AbiInput)
  | constructor (inputs : List AbiInput)
deriving Repr, DecidableEq

/-- Embedding of `fn build_function_signature(name: &str, inputs: &[AbiInput])`
(scaffold.rs:157-161): `format!("{}({})", name, types.join(","))`. -/
def build_function_signature (name : String) (inputs : List AbiInput) : String :=
  let types := inputs.map fun i => i.type_name
  name ++ "(" ++ String.intercalate "," types ++ ")"

/-! ## Hex formatting helpers (scaffold.rs:163-185) -/

/-- Lower-case hex digit of a value below 16. -/
def hexDigit (n : Nat) : Char :=
  if n < 10 then Char.ofNat (48 + n) else Char.ofNat (87 + n)

/-- Rust `format!("0x{:02x}", b)` for a byte `b < 256`. -/
def byteHex (b : Nat) : String :=
  "0x" ++ String.mk [hexDigit (b / 16), hexDigit (b % 16)]

/-- Embedding of `fn format_bytes_as_hex(bytes: &[u8]) -> String`
(scaffold.rs:164-170):
each byte as `0x{:02x}`, joined by `", "`. -/
def format_bytes_as_hex (bytes : List Nat) : String :=
  String.intercalate ", " (bytes.map byteHex)

/-- Embedding of `fn format_bytes32_multiline(bytes: &[u8; 32]) -> String`
(scaffold.rs:173-185): chunks of 8 bytes, each chunk joined by `", "`,
chunks joined by `",\n    "`. -/
def format_bytes32_multiline (bytes : List Nat) : String :=
  String.intercalate ",\n    "
    ((chunksOf 8 bytes).map fun chunk => String.intercalate ", " (chunk.map byteHex))

/-! ## Identifier normalizer

`scaffold.rs` normalizes names with the external `convert_case` crate
(`name.to_case(Case::Snake | Case::Pascal | Case::UpperSnake)`), whose code is
not part of this repository.  The definitions below are therefore
modelled from the spec (§4.3): split a name on non-alphanumeric boundaries
and on lowercase→uppercase transitions, then join the words with the target
casing's separator and capitalization rule.  Character classes follow the
ASCII ranges (the names in scope are ASCII identifiers).
-/

/-- ASCII uppercase letter test. -/
def isUpperC (c : Char) : Bool := 65 ≤ c.toNat && c.toNat ≤ 90

/-- ASCII lowercase letter test. -/
def isLowerC (c : Char) : Bool := 97 ≤ c.toNat && c.toNat ≤ 122

/-- ASCII digit test. -/
def isDigitC (c : Char) : Bool := 48 ≤ c.toNat && c.toNat ≤ 57

/-- ASCII alphanumeric test. -/
def isAlnumC (c : Char) : Bool := isUpperC c || isLowerC c || isDigitC c

/-- ASCII lower-casing of one character. -/
def toLowerC (c : Char) : Char :=
  if isUpperC c then Char.ofNat (c.toNat + 32) else c

/-- ASCII upper-casing of one character. -/
def toUpperC (c : Char) : Char :=
  if isLowerC c then Char.ofNat (c.toNat - 32) else c

/-- Modelled from the spec: §4.3 word splitting.  Cut the character list at
every non-alphanumeric character (which is dropped) and between a lowercase
letter and a following uppercase letter.  Produces the raw segments,
possibly empty; `words` filters the empty ones out. -/
def splitWords : List Char → List (List Char)
  | [] => [[]]
  | [c] => if isAlnumC c then [[c]] else [[], []]
  | c :: d :: cs =>
    let ws := splitWords (d :: cs)
    if isAlnumC c then
      if isLowerC c && isUpperC d then [c] :: ws
      else (c :: ws.headD []) :: ws.tail
    else [] :: ws

/-- Modelled from the spec: §4.3 — the words of a name. -/
def words (cs : List Char) : List (List Char) :=
  (splitWords cs).filter fun w => !w.isEmpty

/-- Join words with a separator character. -/
def joinSep (sep : Char) : List (List Char) → List Char
  | [] => []
  | [w] => w
  | w :: ws => w ++ sep :: joinSep sep ws

/-- Capitalize one word: first character upper-cased, rest lower-cased. -/
def capitalizeWord : List Char → List Char
  | [] => []
  | c :: cs => toUpperC c :: cs.map toLowerC

/-- Modelled from the spec: `snake_case` normalization
(`to_case(Case::Snake)` in scaffold.rs) — lower-cased words joined by `_`. -/
def toSnake (s : String) : String :=
  ⟨joinSep '_' ((words s.data).map (List.map toLowerC))⟩

/-- Modelled from the spec: `PascalCase` normalization
(`to_case(Case::Pascal)` in scaffold.rs) — capitalized words concatenated. -/
def toPascal (s : String) : String :=
  ⟨((words s.data).map capitalizeWord).flatten⟩

/-- Modelled from the spec: `UPPER_SNAKE_CASE` normalization
(`to_case(Case::UpperSnake)` in scaffold.rs) — upper-cased words joined
by `_`. -/
def toUpperSnake (s : String) : String :=
  ⟨joinSep '_' ((words s.data).map (List.map toUpperC))⟩

/-- Rust `contract_name.to_uppercase()` (scaffold.rs:498), on its ASCII fragment:
upper-case every character in place. -/
def string_to_uppercase (s : String) : String :=
  ⟨s.data.map toUpperC⟩

/-- Helper automaton for `isPascalCased`: scans the characters after the
word-initial uppercase letter; the flag records whether the current word
already contains a lowercase letter (a new uppercase letter may only start
a new word when it does, so that the word boundaries are recoverable). -/
def pascalAux : Bool → List Char → Bool
  | _, [] => true
  | hasLower, c :: rest =>
    if isLowerC c then pascalAux true rest
    else if isUpperC c then hasLower && pascalAux false rest
    else false

/-- List-level PascalCase shape: empty, or an uppercase letter followed by
an accepted `pascalAux` tail. -/
def goodPascalL : List Char → Bool
  | [] => true
  | c :: rest => isUpperC c && pascalAux false rest

/-- A name already in PascalCase: a concatenation of capitalized words, each
an uppercase letter followed by lowercase letters, where every word except
the last is nonempty past its initial (so the word boundaries are visible). -/
def isPascalCased (s : String) : Bool := goodPascalL s.data

/-- The specification's description of signature building: the parameter
canonical types joined by `","` in exactly the declared order.  Used as the
second side of the refinement comparison for the signature builder. -/
def joinTypesSpec : List String → String
  | [] => ""
  | [t] => t
  | t :: ts => t ++ "," ++ joinTypesSpec ts

/-- The specification's signature shape: the name, `"("`, the types joined
in declared order, `")"`, with no reordering, escaping or quoting. -/
def signatureSpec (name : String) (inputs : List AbiInput) : String :=
  name ++ "(" ++ joinTypesSpec (inputs.map fun i => i.type_name) ++ ")"

/-! ## Generated-model structures (scaffold.rs:46-79)

The Rust code fills these and hands them to the external Askama renderer;
the embedding stops at the filled structures.
-/

/-- Embedding of `struct AllocFunctionInfo` (scaffold.rs:46-50). -/
structure AllocFunctionInfo where
  name : String
  name_snake : String
  call_type : String
deriving Repr, DecidableEq

/-- Embedding of `struct SelectorConst` (scaffold.rs:52-56). -/
structure SelectorConst where
  const_name : String
  bytes_hex : String
  signature : String
deriving Repr, DecidableEq

/-- Embedding of `struct EventConst` (scaffold.rs:58-62). -/
structure EventConst where
  const_name : String
  bytes_hex : String
  signature : String
deriving Repr, DecidableEq

/-- Embedding of `struct ErrorConst` (scaffold.rs:64-68). -/
structure ErrorConst where
  const_name : String
  bytes_hex : String
  signature : String
deriving Repr, DecidableEq

/-- Embedding of `struct ParamDecode` (scaffold.rs:77-79). -/
structure ParamDecode where
  decode_line : String
deriving Repr, DecidableEq

/-- Embedding of `struct NoAllocFunctionInfo` (scaffold.rs:70-75). -/
structure NoAllocFunctionInfo where
  name : String
  selector_const : String
  min_call_data_len : Nat
  params : List ParamDecode
deriving Repr, DecidableEq

/-- The data of `ContractNoAllocTemplate` (scaffold.rs:16-24). -/
structure ContractNoAllocTemplate where
  contract_name_upper : String
  selectors : List SelectorConst
  events : List EventConst
  errors : List ErrorConst
  functions : List NoAllocFunctionInfo
deriving Repr, DecidableEq

/-! ## The managed ("alloc") generator (scaffold.rs:468-495) -/

/-- Embedding of `fn generate_rust_code_alloc` (scaffold.rs:468-495), up to
the external template rendering: the `AllocFunctionInfo` list it builds from the ABI. -/
def generate_rust_code_alloc (abi : List AbiItem) (contract_name : String) :
    List AllocFunctionInfo :=
  let contract_name_pascal := toPascal contract_name
  abi.filterMap fun item =>
    match item with
    | .function name _ _ _ =>
      some { name := name
             name_snake := toSnake name
             call_type := contract_name_pascal ++ "::" ++ name ++ "Call" }
    | _ => none

/-! ## The manual ("no-alloc") generator (scaffold.rs:497-592) -/

/-- The decode placeholder line for one parameter (scaffold.rs:519-529):
`param_{idx}` for a nameless parameter, otherwise the snake-cased name,
inside a `// TODO: decode …` comment. -/
def paramDecodeLine (idx : Nat) (input : AbiInput) : ParamDecode :=
  let param_name := if input.name = "" then "param_" ++ toString idx
                    else toSnake input.name
  { decode_line := "// TODO: decode " ++ param_name ++ " of type " ++ input.type_name }

/-- The `SelectorConst` built for one function item (scaffold.rs:506-514). -/
def mkSelectorConst (name : String) (inputs : List AbiInput) : SelectorConst :=
  let signature := build_function_signature name inputs
  let selector := compute_selector signature
  { const_name := toUpperSnake name ++ "_SELECTOR"
    bytes_hex := format_bytes_as_hex selector
    signature := signature }

/-- The `NoAllocFunctionInfo` built for one function item
(scaffold.rs:516-537). -/
def mkNoAllocFunctionInfo (name : String) (inputs : List AbiInput) :
    NoAllocFunctionInfo :=
  { name := name
    selector_const := toUpperSnake name ++ "_SELECTOR"
    min_call_data_len := 4 + inputs.length * 32
    params := inputs.enum.map fun p => paramDecodeLine p.1 p.2 }

/-- The single pass of scaffold.rs:504-539 collecting the selector constants
and function infos for every `AbiItem::Function`, in ABI order. -/
def collectFunctions : List AbiItem → List SelectorConst × List NoAllocFunctionInfo
  | [] => ([], [])
  | item :: rest =>
    let (selectors, functions) := collectFunctions rest
    match item with
    | .function name inputs _ _ =>
      (mkSelectorConst name inputs :: selectors,
       mkNoAllocFunctionInfo name inputs :: functions)
    | _ => (selectors, functions)

/-- The `EventConst` built for one event item (scaffold.rs:542-559): the
constant holds the full 32-byte `keccak256` hash of the signature. -/
def mkEventConst (name : String) (inputs : List AbiInput) : EventConst :=
  let signature := build_function_signature name inputs
  { const_name := toUpperSnake name ++ "_EVENT_SIGNATURE"
    bytes_hex := format_bytes32_multiline (keccak256 signature)
    signature := signature }

/-- The `ErrorConst` built for one error item (scaffold.rs:561-579): the
constant holds the 4-byte selector of the signature. -/
def mkErrorConst (name : String) (inputs : List AbiInput) : ErrorConst :=
  let signature := build_function_signature name inputs
  { const_name := toUpperSnake name ++ "_ERROR"
    bytes_hex := format_bytes_as_hex (compute_selector signature)
    signature := signature }

/-- Embedding of `fn generate_rust_code_no_alloc` (scaffold.rs:497-592), up to
the external template rendering: the `ContractNoAllocTemplate` data it builds.  The Rust
function has no validation or error path of its own (its `Result` only wraps
the external renderer's outcome), so the model is a total function. -/
def generate_rust_code_no_alloc (abi : List AbiItem) (contract_name : String) :
    ContractNoAllocTemplate :=
  let (selectors, functions) := collectFunctions abi
  { contract_name_upper := string_to_uppercase contract_name
    selectors := selectors
    events := abi.filterMap fun item =>
      match item with
      | .event name inputs => some (mkEventConst name inputs)
      | _ => none
    errors := abi.filterMap fun item =>
      match item with
      | .error name inputs => some (mkErrorConst name inputs)
      | _ => none
    functions := functions }

/-- The function items of an ABI, in declaration order — the shared
extraction both generators perform with their `Function`-only filters. -/
def functionItems (abi : List AbiItem) : List (String × List AbiInput) :=
  abi.filterMap fun item =>
    match item with
    | .function name inputs _ _ => some (name, inputs)
    | _ => none

/-- The event items of an ABI, in declaration order. -/
def eventItems (abi : List AbiItem) : List (String × List AbiInput) :=
  abi.filterMap fun item =>
    match item with
    | .event name inputs => some (name, inputs)
    | _ => none

/-- The error items of an ABI, in declaration order. -/
def errorItems (abi : List AbiItem) : List (String × List AbiInput) :=
  abi.filterMap fun item =>
    match item with
    | .error name inputs => some (name, inputs)
    | _ => none

/-! ## Helper lemmas: ASCII character classes -/

theorem toNat_ofNat_of_lt {n : Nat} (h : n < 55296) : (Char.ofNat n).toNat = n := by
  rw [Char.ofNat, dif_pos (Or.inl h)]
  simp [Char.ofNatAux, Char.toNat, UInt32.toNat, Nat.mod_eq_of_lt (by omega : n < 4294967296)]

theorem isUpperC_iff {c : Char} : isUpperC c = true ↔ 65 ≤ c.toNat ∧ c.toNat ≤ 90 := by
  simp [isUpperC]

theorem isLowerC_iff {c : Char} : isLowerC c = true ↔ 97 ≤ c.toNat ∧ c.toNat ≤ 122 := by
  simp [isLowerC]

theorem isDigitC_iff {c : Char} : isDigitC c = true ↔ 48 ≤ c.toNat ∧ c.toNat ≤ 57 := by
  simp [isDigitC]

theorem isUpperC_false_iff {c : Char} : isUpperC c = false ↔ ¬(65 ≤ c.toNat ∧ c.toNat ≤ 90) := by
  simp [isUpperC]

theorem isLowerC_false_iff {c : Char} : isLowerC c = false ↔ ¬(97 ≤ c.toNat ∧ c.toNat ≤ 122) := by
  simp [isLowerC]

theorem toLowerC_of_not_upper {c : Char} (h : isUpperC c = false) : toLowerC c = c := by
  simp [toLowerC, h]

theorem toUpperC_of_not_lower {c : Char} (h : isLowerC c = false) : toUpperC c = c := by
  simp [toUpperC, h]

theorem toLowerC_toNat_of_upper {c : Char} (h : isUpperC c = true) :
    (toLowerC c).toNat = c.toNat + 32 := by
  have hc := isUpperC_iff.mp h
  simp [toLowerC, h, toNat_ofNat_of_lt (show c.toNat + 32 < 55296 by omega)]

theorem isUpperC_toLowerC (c : Char) : isUpperC (toLowerC c) = false := by
  by_cases h : isUpperC c = true
  · have hc := isUpperC_iff.mp h
    rw [isUpperC_false_iff, toLowerC_toNat_of_upper h]
    omega
  · rw [toLowerC_of_not_upper (Bool.not_eq_true _ ▸ h)]
    exact Bool.not_eq_true _ ▸ h

theorem isLowerC_toLowerC_of_upper {c : Char} (h : isUpperC c = true) :
    isLowerC (toLowerC c) = true := by
  have hc := isUpperC_iff.mp h
  rw [isLowerC_iff, toLowerC_toNat_of_upper h]
  omega

theorem isAlnumC_toLowerC {c : Char} (h : isAlnumC c = true) :
    isAlnumC (toLowerC c) = true := by
  by_cases hu : isUpperC c = true
  · simp [isAlnumC, isLowerC_toLowerC_of_upper hu]
  · rwa [toLowerC_of_not_upper (Bool.not_eq_true _ ▸ hu)]

theorem toLowerC_idem (c : Char) : toLowerC (toLowerC c) = toLowerC c :=
  toLowerC_of_not_upper (isUpperC_toLowerC c)

theorem isUpperC_of_lower {c : Char} (h : isLowerC c = true) : isUpperC c = false := by
  have := isLowerC_iff.mp h
  rw [isUpperC_false_iff]
  omega

theorem isLowerC_of_upper {c : Char} (h : isUpperC c = true) : isLowerC c = false := by
  have := isUpperC_iff.mp h
  rw [isLowerC_false_iff]
  omega

theorem isUpperC_of_digit {c : Char} (h : isDigitC c = true) : isUpperC c = false := by
  have := isDigitC_iff.mp h
  rw [isUpperC_false_iff]
  omega

theorem isLowerC_of_digit {c : Char} (h : isDigitC c = true) : isLowerC c = false := by
  have := isDigitC_iff.mp h
  rw [isLowerC_false_iff]
  omega

theorem toLowerC_of_lower {c : Char} (h : isLowerC c = true) : toLowerC c = c :=
  toLowerC_of_not_upper (isUpperC_of_lower h)

theorem toUpperC_of_upper {c : Char} (h : isUpperC c = true) : toUpperC c = c :=
  toUpperC_of_not_lower (isLowerC_of_upper h)

theorem toUpperC_of_digit {c : Char} (h : isDigitC c = true) : toUpperC c = c :=
  toUpperC_of_not_lower (isLowerC_of_digit h)

theorem isAlnumC_of_lower {c : Char} (h : isLowerC c = true) : isAlnumC c = true := by
  simp [isAlnumC, h]

theorem isAlnumC_of_upper {c : Char} (h : isUpperC c = true) : isAlnumC c = true := by
  simp [isAlnumC, h]

theorem isAlnumC_of_digit {c : Char} (h : isDigitC c = true) : isAlnumC c = true := by
  simp [isAlnumC, h]

theorem splitWords_ne_nil (cs : List Char) : splitWords cs ≠ [] := by
  match cs with
  | [] => simp [splitWords]
  | [c] => by_cases h : isAlnumC c = true <;> simp [splitWords, h]
  | c :: d :: cs =>
    rw [splitWords]
    by_cases h : isAlnumC c = true
    · by_cases hb : (isLowerC c && isUpperC d) = true <;> simp [h, hb]
    · simp [h]

theorem splitWords_cons_nonalnum {c : Char} (cs : List Char) (h : isAlnumC c = false) :
    splitWords (c :: cs) = [] :: splitWords cs := by
  match cs with
  | [] => simp [splitWords, h]
  | d :: cs => simp [splitWords, h]

theorem splitWords_cons_noBoundary {c : Char} {cs : List Char} (hc : isAlnumC c = true)
    (h : ∀ d rest, cs = d :: rest → (isLowerC c && isUpperC d) = false) :
    splitWords (c :: cs) = (c :: (splitWords cs).headD []) :: (splitWords cs).tail := by
  match cs with
  | [] => simp [splitWords, hc]
  | d :: cs => simp [splitWords, hc, h d cs rfl]

theorem splitWords_cons_boundary {c d : Char} (rest : List Char) (hc : isAlnumC c = true)
    (hl : isLowerC c = true) (hd : isUpperC d = true) :
    splitWords (c :: d :: rest) = [c] :: splitWords (d :: rest) := by
  simp [splitWords, hc, hl, hd]

theorem splitWords_append_noUpper : ∀ (w cs : List Char),
    (∀ c ∈ w, isAlnumC c = true) →
    (∀ c ∈ w.drop 1, isUpperC c = false) →
    (∀ d, cs.head? = some d → isUpperC d = false) →
    splitWords (w ++ cs) = (w ++ (splitWords cs).headD []) :: (splitWords cs).tail
  | [], cs, _, _, _ => by
    rcases hs : splitWords cs with _ | ⟨a, b⟩
    · exact absurd hs (splitWords_ne_nil cs)
    · simpa using hs
  | c :: w', cs, hal, htl, hcs => by
    have hnb : ∀ d rest, w' ++ cs = d :: rest → (isLowerC c && isUpperC d) = false := by
      intro d rest heq
      have hdu : isUpperC d = false := by
        rcases w' with _ | ⟨e, w''⟩
        · exact hcs d (by simp at heq; rw [heq]; rfl)
        · have : e = d := by simpa using congrArg List.head? heq
          exact this ▸ htl e (by simp)
      simp [hdu]
    have step := splitWords_cons_noBoundary (hal c (by simp)) hnb
    have ih := splitWords_append_noUpper w' cs (fun x hx => hal x (by simp [hx]))
      (fun x hx => htl x (List.mem_of_mem_drop hx)) hcs
    rw [List.cons_append, step, ih]
    simp

theorem splitWords_lowers_upper : ∀ (ls : List Char) (d : Char) (rest : List Char),
    ls ≠ [] → (∀ c ∈ ls, isLowerC c = true) → isUpperC d = true →
    splitWords (ls ++ d :: rest) = ls :: splitWords (d :: rest)
  | [], _, _, hne, _, _ => absurd rfl hne
  | [l], d, rest, _, hls, hd => by
    have hl := hls l (by simp)
    exact splitWords_cons_boundary rest (isAlnumC_of_lower hl) hl hd
  | l :: l' :: ls', d, rest, _, hls, hd => by
    have hl := hls l (by simp)
    have step : splitWords (l :: ((l' :: ls') ++ d :: rest)) =
        (l :: (splitWords ((l' :: ls') ++ d :: rest)).headD []) ::
          (splitWords ((l' :: ls') ++ d :: rest)).tail := by
      apply splitWords_cons_noBoundary (isAlnumC_of_lower hl)
      intro e tl heq
      have : e = l' := by simpa using (congrArg List.head? heq).symm
      simp [this, isUpperC_of_lower (hls l' (by simp))]
    have ih := splitWords_lowers_upper (l' :: ls') d rest (by simp)
      (fun x hx => hls x (by simp at hx; rcases hx with h | h <;> simp [h])) hd
    rw [List.cons_append, step, ih]
    simp

theorem mem_splitWords_alnum : ∀ (cs : List Char), ∀ w ∈ splitWords cs, ∀ c ∈ w,
    isAlnumC c = true
  | [], w, hw, c, hc => by
    simp [splitWords] at hw
    subst hw
    simp at hc
  | [a], w, hw, c, hc => by
    by_cases h : isAlnumC a = true
    · simp [splitWords, h] at hw
      subst hw
      simp at hc
      subst hc
      exact h
    · simp [splitWords, h] at hw
      subst hw
      simp at hc
  | a :: d :: cs, w, hw, c, hc => by
    rcases hS : splitWords (d :: cs) with _ | ⟨w₀, tl⟩
    · exact absurd hS (splitWords_ne_nil _)
    · have hmem : ∀ x ∈ w₀ :: tl, ∀ y ∈ x, isAlnumC y = true := by
        rw [← hS]
        exact mem_splitWords_alnum (d :: cs)
      by_cases h : isAlnumC a = true
      · by_cases hb : (isLowerC a && isUpperC d) = true
        · rw [splitWords_cons_boundary cs h (by simp_all) (by simp_all), hS] at hw
          rcases List.mem_cons.mp hw with hw | hw
          · subst hw
            simp at hc
            subst hc
            exact h
          · exact hmem w hw c hc
        · rw [splitWords_cons_noBoundary h
            (by intro x y hxy; rw [show x = d by simpa using (congrArg List.head? hxy).symm]; simpa using hb),
            hS] at hw
          rcases List.mem_cons.mp hw with hw | hw
          · subst hw
            rcases List.mem_cons.mp hc with hc | hc
            · subst hc
              exact h
            · exact hmem w₀ (by simp) c (by simpa using hc)
          · exact hmem w (List.mem_cons_of_mem _ (by simpa using hw)) c hc
      · rw [splitWords_cons_nonalnum _ (by simpa using h), hS] at hw
        rcases List.mem_cons.mp hw with hw | hw
        · subst hw
          simp at hc
        · exact hmem w hw c hc

theorem mem_words {cs : List Char} {w : List Char} (h : w ∈ words cs) :
    w ∈ splitWords cs ∧ w ≠ [] := by
  rw [words, List.mem_filter] at h
  refine ⟨h.1, ?_⟩
  simpa using h.2

theorem words_join : ∀ (ws : List (List Char)),
    (∀ w ∈ ws, w ≠ []) →
    (∀ w ∈ ws, ∀ c ∈ w, isAlnumC c = true ∧ isUpperC c = false) →
    words (joinSep '_' ws) = ws
  | [], _, _ => by simp [joinSep, words, splitWords]
  | [w], hne, hch => by
    have hs : splitWords (w ++ []) = (w ++ (splitWords []).headD []) :: (splitWords []).tail :=
      splitWords_append_noUpper w [] (fun c hc => (hch w (by simp) c hc).1)
        (fun c hc => (hch w (by simp) c (List.mem_of_mem_drop hc)).2)
        (by intro d hd; simp at hd)
    rw [List.append_nil] at hs
    have hw : (!w.isEmpty) = true := by simpa using hne w (by simp)
    rw [joinSep, words, hs]
    simp [splitWords, List.filter, hw]
  | w :: w' :: ws', hne, hch => by
    have hs : splitWords (w ++ '_' :: joinSep '_' (w' :: ws')) =
        (w ++ (splitWords ('_' :: joinSep '_' (w' :: ws'))).headD []) ::
          (splitWords ('_' :: joinSep '_' (w' :: ws'))).tail :=
      splitWords_append_noUpper w _ (fun c hc => (hch w (by simp) c hc).1)
        (fun c hc => (hch w (by simp) c (List.mem_of_mem_drop hc)).2)
        (by intro d hd; simp at hd; rw [← hd]; decide)
    rw [splitWords_cons_nonalnum _ (by decide)] at hs
    simp only [List.headD_cons, List.tail_cons, List.append_nil] at hs
    have ih := words_join (w' :: ws') (fun x hx => hne x (by simp [hx]))
      (fun x hx => hch x (by simp [hx]))
    rw [show joinSep '_' (w :: w' :: ws') = w ++ '_' :: joinSep '_' (w' :: ws') from rfl,
      words, hs, List.filter]
    have : (!w.isEmpty) = true := by simpa using hne w (by simp)
    rw [this]
    rw [words] at ih
    rw [ih]

theorem map_toLowerC_idem (w : List Char) :
    (w.map toLowerC).map toLowerC = w.map toLowerC := by
  rw [List.map_map]
  exact List.map_congr_left fun a _ => toLowerC_idem a

theorem toSnake_idem (s : String) : toSnake (toSnake s) = toSnake s := by
  have h1 : ∀ w ∈ (words s.data).map (List.map toLowerC), w ≠ [] := by
    intro w hw
    rcases List.mem_map.mp hw with ⟨w₀, hw₀, rfl⟩
    simpa using (mem_words hw₀).2
  have h2 : ∀ w ∈ (words s.data).map (List.map toLowerC), ∀ c ∈ w,
      isAlnumC c = true ∧ isUpperC c = false := by
    intro w hw c hc
    rcases List.mem_map.mp hw with ⟨w₀, hw₀, rfl⟩
    rcases List.mem_map.mp hc with ⟨c₀, hc₀, rfl⟩
    have hal := mem_splitWords_alnum s.data w₀ (mem_words hw₀).1 c₀ hc₀
    exact ⟨isAlnumC_toLowerC hal, isUpperC_toLowerC c₀⟩
  have hwj := words_join _ h1 h2
  show (⟨joinSep '_' ((words (toSnake s).data).map (List.map toLowerC))⟩ : String) = toSnake s
  have hdata : (toSnake s).data = joinSep '_' ((words s.data).map (List.map toLowerC)) := rfl
  rw [hdata, hwj, toSnake]
  congr 1
  rw [List.map_map]
  exact congrArg (joinSep '_') (List.map_congr_left fun w _ => by simpa using map_toLowerC_idem w)

theorem pascalAux_decomp : ∀ (tail : List Char) (b : Bool), pascalAux b tail = true →
    tail.dropWhile isLowerC = [] ∨
      ∃ d rest', tail.dropWhile isLowerC = d :: rest' ∧ isUpperC d = true ∧
        (b = true ∨ tail.takeWhile isLowerC ≠ []) ∧ pascalAux false rest' = true
  | [], _, _ => by simp
  | c :: t, b, h => by
    by_cases hl : isLowerC c = true
    · rw [pascalAux, if_pos hl] at h
      rcases pascalAux_decomp t true h with h' | ⟨d, rest', hd, hdu, _, hrec⟩
      · left
        simpa [List.dropWhile, hl] using h'
      · right
        refine ⟨d, rest', ?_, hdu, ?_, hrec⟩
        · simpa [List.dropWhile, hl] using hd
        · right
          simp [List.takeWhile, hl]
    · rw [pascalAux, if_neg hl] at h
      by_cases hu : isUpperC c = true
      · rw [if_pos hu, Bool.and_eq_true] at h
        right
        refine ⟨c, t, ?_, hu, Or.inl h.1, h.2⟩
        simp [List.dropWhile, Bool.not_eq_true _ ▸ hl]
      · rw [if_neg hu] at h
        exact absurd h (by simp)

theorem flatten_words_good : ∀ (n : Nat) (cs : List Char), cs.length ≤ n →
    goodPascalL cs = true → ((words cs).map capitalizeWord).flatten = cs
  | 0, cs, hlen, _ => by
    have : cs = [] := List.length_eq_zero.mp (Nat.le_zero.mp hlen)
    subst this
    simp [words, splitWords]
  | n + 1, [], _, _ => by simp [words, splitWords]
  | n + 1, c :: tail, hlen, hgood => by
    rw [goodPascalL, Bool.and_eq_true] at hgood
    obtain ⟨hcu, haux⟩ := hgood
    have htl : tail = tail.takeWhile isLowerC ++ tail.dropWhile isLowerC :=
      (List.takeWhile_append_dropWhile ..).symm
    have hls : ∀ x ∈ tail.takeWhile isLowerC, isLowerC x = true :=
      fun x hx => List.mem_takeWhile_imp hx
    rcases pascalAux_decomp tail false haux with hrest | ⟨d, rest', hrest, hdu, hne, hrec⟩
    · rw [hrest, List.append_nil] at htl
      have hsplit : splitWords (c :: tail) =
          ((c :: tail) ++ (splitWords []).headD []) :: (splitWords []).tail := by
        have := splitWords_append_noUpper (c :: tail) []
          (by intro x hx
              rcases List.mem_cons.mp hx with rfl | hx
              · exact isAlnumC_of_upper hcu
              · exact isAlnumC_of_lower (hls x (htl ▸ hx)))
          (by intro x hx
              simp only [List.drop_one, List.tail_cons] at hx
              exact isUpperC_of_lower (hls x (htl ▸ hx)))
          (by intro x hx; simp at hx)
        simpa using this
      simp only [splitWords, List.headD_cons, List.tail_cons, List.append_nil] at hsplit
      have hcap : capitalizeWord (c :: tail) = c :: tail := by
        rw [capitalizeWord, toUpperC_of_upper hcu]
        congr 1
        have : tail.map toLowerC = tail.map id :=
          List.map_congr_left fun x hx => toLowerC_of_lower (hls x (htl ▸ hx))
        simpa using this
      rw [words, hsplit, List.filter]
      simp [hcap]
    · have hlsne : tail.takeWhile isLowerC ≠ [] := by
        rcases hne with h | h
        · exact absurd h (by simp)
        · exact h
      have htail : tail = tail.takeWhile isLowerC ++ d :: rest' :=
        htl.trans (by rw [hrest])
      have hB : splitWords (tail.takeWhile isLowerC ++ d :: rest') =
          tail.takeWhile isLowerC :: splitWords (d :: rest') :=
        splitWords_lowers_upper _ d rest' hlsne hls hdu
      have hstep : splitWords (c :: (tail.takeWhile isLowerC ++ d :: rest')) =
          (c :: (splitWords (tail.takeWhile isLowerC ++ d :: rest')).headD []) ::
            (splitWords (tail.takeWhile isLowerC ++ d :: rest')).tail := by
        apply splitWords_cons_noBoundary (isAlnumC_of_upper hcu)
        intro e tl heq
        rcases hlsE : tail.takeWhile isLowerC with _ | ⟨l₁, ls'⟩
        · exact absurd hlsE hlsne
        · rw [hlsE] at heq
          have he : e = l₁ := by simpa using (congrArg List.head? heq).symm
          simp [he, isUpperC_of_lower (hls l₁ (by rw [hlsE]; simp))]
      rw [hB] at hstep
      simp only [List.headD_cons, List.tail_cons] at hstep
      have hlen' : (d :: rest').length ≤ n := by
        have h1 : tail.length + 1 ≤ n + 1 := by simpa using hlen
        have h2 := congrArg List.length htail
        simp only [List.length_append, List.length_cons] at h2 ⊢
        omega
      have ih := flatten_words_good n (d :: rest') hlen'
        (by rw [goodPascalL, Bool.and_eq_true]; exact ⟨hdu, hrec⟩)
      have hcap : capitalizeWord (c :: tail.takeWhile isLowerC) = c :: tail.takeWhile isLowerC := by
        rw [capitalizeWord, toUpperC_of_upper hcu]
        congr 1
        have : (tail.takeWhile isLowerC).map toLowerC = (tail.takeWhile isLowerC).map id :=
          List.map_congr_left fun x hx => toLowerC_of_lower (hls x hx)
        simpa using this
      rw [show c :: tail = c :: (tail.takeWhile isLowerC ++ d :: rest') from by rw [← htail]]
      rw [words, hstep, List.filter]
      have hkeep : (!(c :: tail.takeWhile isLowerC).isEmpty) = true := by simp
      rw [hkeep]
      simp only [List.map_cons, List.flatten_cons, hcap]
      rw [show List.filter (fun w => !w.isEmpty) (splitWords (d :: rest')) = words (d :: rest')
        from rfl, ih]
      simp

theorem toPascal_of_pascalCased (s : String) (h : isPascalCased s = true) : toPascal s = s := by
  have hff := flatten_words_good s.data.length s.data (Nat.le_refl _) h
  rw [toPascal, hff]

theorem toUpperSnake_digits (s : String) (hne : s.data ≠ [])
    (hd : ∀ c ∈ s.data, isDigitC c = true) : toUpperSnake s = s := by
  have hsplit : splitWords s.data = [s.data] := by
    have h := splitWords_append_noUpper s.data []
      (fun c hc => isAlnumC_of_digit (hd c hc))
      (fun c hc => isUpperC_of_digit (hd c (List.mem_of_mem_drop hc)))
      (by intro d hdd; simp at hdd)
    simpa [splitWords] using h
  have hmap : s.data.map toUpperC = s.data.map id :=
    List.map_congr_left fun x hx => toUpperC_of_digit (hd x hx)
  rw [toUpperSnake, words, hsplit, List.filter]
  have hkeep : (!s.data.isEmpty) = true := by simpa using hne
  rw [hkeep]
  simp only [List.filter_nil, List.map_cons, List.map_nil, joinSep]
  rw [show s.data.map toUpperC = s.data by simpa using hmap]

theorem intercalate_go_eq : ∀ (as : List String) (acc s : String),
    String.intercalate.go acc s as = acc ++ (as.map fun a => s ++ a).foldr (· ++ ·) "" := by
  intro as
  induction as with
  | nil => intro acc s; simp [String.intercalate.go]
  | cons a as ih =>
    intro acc s
    rw [show String.intercalate.go acc s (a :: as) = String.intercalate.go (acc ++ s ++ a) s as
      from rfl, ih]
    simp [String.append_assoc]

theorem intercalate_eq_joinTypesSpec : ∀ (l : List String),
    String.intercalate "," l = joinTypesSpec l
  | [] => rfl
  | [t] => by
    rw [show String.intercalate "," [t] = String.intercalate.go t "," [] from rfl]
    rfl
  | t :: u :: us => by
    have h1 : String.intercalate "," (t :: u :: us) = String.intercalate.go t "," (u :: us) := rfl
    have h2 : String.intercalate "," (u :: us) = String.intercalate.go u "," us := rfl
    rw [h1, intercalate_go_eq,
      show joinTypesSpec (t :: u :: us) = t ++ "," ++ joinTypesSpec (u :: us) from rfl]
    rw [← intercalate_eq_joinTypesSpec (u :: us), h2, intercalate_go_eq]
    simp [String.append_assoc]

/-! ## Helper lemmas: keccak output length -/

theorem keccakRound_length (st : List Nat) (rc : Nat) : (keccakRound st rc).length = 25 := by
  simp [keccakRound]

theorem foldl_keccakRound_length : ∀ (l : List Nat) (st : List Nat), st.length = 25 →
    (l.foldl keccakRound st).length = 25
  | [], _, h => h
  | r :: rs, st, _ => by
    rw [List.foldl_cons]
    exact foldl_keccakRound_length rs _ (keccakRound_length st r)

theorem keccakAbsorbBlock_length (st block : List Nat) :
    (keccakAbsorbBlock st block).length = 25 := by
  rw [keccakAbsorbBlock, keccakF]
  exact foldl_keccakRound_length keccakRC _ (by simp)

theorem foldl_absorb_length : ∀ (blocks : List (List Nat)) (st : List Nat), st.length = 25 →
    (blocks.foldl keccakAbsorbBlock st).length = 25
  | [], _, h => h
  | b :: bs, st, _ => by
    rw [List.foldl_cons]
    exact foldl_absorb_length bs _ (keccakAbsorbBlock_length st b)

theorem laneBytes_length (lane : Nat) : (laneBytes lane).length = 8 := by
  simp [laneBytes]

theorem keccak256_length (s : String) : (keccak256 s).length = 32 := by
  rw [keccak256]
  have hst := foldl_absorb_length (chunksOf 136 (keccakPad (strBytes s)))
    (List.replicate 25 0) (by simp)
  rcases hl : (chunksOf 136 (keccakPad (strBytes s))).foldl keccakAbsorbBlock
      (List.replicate 25 0) with _ | ⟨a, ⟨⟩ | ⟨b, ⟨⟩ | ⟨c, ⟨⟩ | ⟨d, t⟩⟩⟩⟩
  all_goals rw [hl] at hst
  all_goals simp at hst
  all_goals simp [List.take, laneBytes_length]

theorem getD_take_four (l : List Nat) (h : 4 ≤ l.length) :
    [l.getD 0 0, l.getD 1 0, l.getD 2 0, l.getD 3 0] = l.take 4 := by
  match l with
  | a :: b :: c :: d :: t => simp [List.getD]
  | [] | [_] | [_, _] | [_, _, _] => simp at h

/-! ## Helper lemmas: the two generators as maps over the extracted items -/

theorem collectFunctions_eq : ∀ abi : List AbiItem,
    collectFunctions abi
      = ((functionItems abi).map fun p => mkSelectorConst p.1 p.2,
         (functionItems abi).map fun p => mkNoAllocFunctionInfo p.1 p.2)
  | [] => rfl
  | item :: rest => by
    have ih := collectFunctions_eq rest
    cases item <;>
      simp [collectFunctions, ih, functionItems, List.filterMap_cons]

theorem filterMap_events_eq : ∀ abi : List AbiItem,
    (abi.filterMap fun item => match item with
      | .event name inputs => some (mkEventConst name inputs)
      | _ => none)
      = (eventItems abi).map fun p => mkEventConst p.1 p.2
  | [] => rfl
  | item :: rest => by
    have ih := filterMap_events_eq rest
    cases item <;> simp [List.filterMap_cons, eventItems, ih]

theorem filterMap_errors_eq : ∀ abi : List AbiItem,
    (abi.filterMap fun item => match item with
      | .error name inputs => some (mkErrorConst name inputs)
      | _ => none)
      = (errorItems abi).map fun p => mkErrorConst p.1 p.2
  | [] => rfl
  | item :: rest => by
    have ih := filterMap_errors_eq rest
    cases item <;> simp [List.filterMap_cons, errorItems, ih]

theorem no_alloc_selectors_eq (abi : List AbiItem) (cn : String) :
    (generate_rust_code_no_alloc abi cn).selectors
      = (functionItems abi).map fun p => mkSelectorConst p.1 p.2 := by
  simp [generate_rust_code_no_alloc, collectFunctions_eq abi]

theorem no_alloc_functions_eq (abi : List AbiItem) (cn : String) :
    (generate_rust_code_no_alloc abi cn).functions
      = (functionItems abi).map fun p => mkNoAllocFunctionInfo p.1 p.2 := by
  simp [generate_rust_code_no_alloc, collectFunctions_eq abi]

theorem no_alloc_events_eq (abi : List AbiItem) (cn : String) :
    (generate_rust_code_no_alloc abi cn).events
      = (eventItems abi).map fun p => mkEventConst p.1 p.2 := by
  simp only [generate_rust_code_no_alloc, collectFunctions_eq abi]
  exact filterMap_events_eq abi

theorem no_alloc_errors_eq (abi : List AbiItem) (cn : String) :
    (generate_rust_code_no_alloc abi cn).errors
      = (errorItems abi).map fun p => mkErrorConst p.1 p.2 := by
  simp only [generate_rust_code_no_alloc, collectFunctions_eq abi]
  exact filterMap_errors_eq abi

theorem alloc_eq : ∀ (abi : List AbiItem) (cn : String),
    generate_rust_code_alloc abi cn
      = (functionItems abi).map fun p =>
          { name := p.1, name_snake := toSnake p.1,
            call_type := toPascal cn ++ "::" ++ p.1 ++ "Call" }
  | [], _ => rfl
  | item :: rest, cn => by
    have ih := alloc_eq rest cn
    cases item <;>
      simp only [generate_rust_code_alloc, List.filterMap_cons, functionItems,
        List.map_cons] <;>
      simp only [generate_rust_code_alloc, functionItems] at ih <;>
      simp [ih]

/-! ## The claims -/

set_option maxRecDepth 100000

set_option maxHeartbeats 1000000

/-- C1: for every signature string `s`, the selector computed by
`compute_selector` is exactly the first 4 bytes of the 32-byte keccak-256
hash of the UTF-8 bytes of `s`; in particular the signature
`"transfer(address,uint256)"` yields the selector bytes `a9 05 9c bb`. -/
theorem c1_selector_is_first_four_hash_bytes :
    (∀ s : String, compute_selector s = (keccak256 s).take 4 ∧ (keccak256 s).length = 32)
    ∧ compute_selector "transfer(address,uint256)" = [0xa9, 0x05, 0x9c, 0xbb] := by
  refine ⟨fun s => ⟨?_, keccak256_length s⟩, by decide⟩
  exact getD_take_four (keccak256 s) (by rw [keccak256_length]; omega)

/-- C5: the built canonical signature equals the item name, `"("`, the
parameter canonical types joined by `","` in exactly the declared order, and
`")"`; nothing is reordered, escaped or quoted (refinement of the source's
`String.intercalate`-based builder against the spec's recursive join). -/
theorem c5_signature_name_types_in_declared_order :
    ∀ (name : String) (inputs : List AbiInput),
      build_function_signature name inputs = signatureSpec name inputs := by
  intro name inputs
  rw [build_function_signature, signatureSpec, intercalate_eq_joinTypesSpec]

/-- C3: every generated function records `min_call_data_len = 4 + 32 * n`
for `n` its parameter count, with no dependence on the parameter types
(dynamic or not); in particular a 2-parameter function gets 68. -/
theorem c3_min_payload_is_4_plus_32_per_param :
    (∀ (abi : List AbiItem) (cn : String),
      List.Forall₂
        (fun (f : NoAllocFunctionInfo) (p : String × List AbiInput) =>
          f.min_call_data_len = 4 + 32 * p.2.length)
        (generate_rust_code_no_alloc abi cn).functions (functionItems abi))
    ∧ (generate_rust_code_no_alloc
        [.function "transfer" [⟨"to", "address", none⟩, ⟨"value", "uint256", none⟩]
          [] "nonpayable"] "token").functions.map (fun f => f.min_call_data_len) = [68] := by
  constructor
  · intro abi cn
    rw [no_alloc_functions_eq]
    induction functionItems abi with
    | nil => exact List.Forall₂.nil
    | cons p t ih =>
      refine List.Forall₂.cons ?_ ih
      show 4 + p.2.length * 32 = 4 + 32 * p.2.length
      omega
  · decide

/-- C10: in the manual strategy, each parameter's decode placeholder uses
the snake-cased ABI name when the name is nonempty, and `param_{i}` with the
zero-based position `i` when the name is empty. -/
theorem c10_param_decode_name_choice :
    (∀ (abi : List AbiItem) (cn : String),
      (generate_rust_code_no_alloc abi cn).functions.map (fun f => f.params)
        = (functionItems abi).map fun p => p.2.enum.map fun q => paramDecodeLine q.1 q.2)
    ∧ (∀ (idx : Nat) (input : AbiInput),
        paramDecodeLine idx input
          = { decode_line := "// TODO: decode "
              ++ (if input.name = "" then "param_" ++ toString idx else toSnake input.name)
              ++ " of type " ++ input.type_name })
    ∧ paramDecodeLine 0 { name := "", type_name := "uint32", indexed := none }
        = { decode_line := "// TODO: decode param_0 of type uint32" }
    ∧ paramDecodeLine 1 { name := "myParam", type_name := "uint256", indexed := none }
        = { decode_line := "// TODO: decode my_param of type uint256" } := by
  refine ⟨?_, fun idx input => rfl, by decide, by decide⟩
  intro abi cn
  rw [no_alloc_functions_eq, List.map_map]
  rfl

/-- C2: both strategies process exactly the `Function` items of the ABI, in
declaration order: the managed output and the manual output are images of
the same extracted function list, the manual one attaching the signature and
selector computed from the item alone and the managed one only the naming
parts (so the selector/signature values associated with every function agree
between the strategies, and the outputs differ only in the decode-plan
versus call-type-name parts). -/
theorem c2_strategies_agree_on_selectors_signatures :
    ∀ (abi : List AbiItem) (cn : String),
      generate_rust_code_alloc abi cn
        = ((functionItems abi).map fun p =>
            { name := p.1, name_snake := toSnake p.1,
              call_type := toPascal cn ++ "::" ++ p.1 ++ "Call" })
      ∧ (generate_rust_code_no_alloc abi cn).selectors
          = ((functionItems abi).map fun p => mkSelectorConst p.1 p.2)
      ∧ (generate_rust_code_no_alloc abi cn).functions
          = ((functionItems abi).map fun p => mkNoAllocFunctionInfo p.1 p.2)
      ∧ (generate_rust_code_alloc abi cn).map (fun f => f.name)
          = (generate_rust_code_no_alloc abi cn).functions.map (fun f => f.name)
      ∧ (∀ p : String × List AbiInput,
          (mkSelectorConst p.1 p.2).signature = build_function_signature p.1 p.2
          ∧ (mkSelectorConst p.1 p.2).bytes_hex
              = format_bytes_as_hex (compute_selector (build_function_signature p.1 p.2))) := by
  intro abi cn
  refine ⟨alloc_eq abi cn, no_alloc_selectors_eq abi cn, no_alloc_functions_eq abi cn,
    ?_, fun p => ⟨rfl, rfl⟩⟩
  rw [alloc_eq abi cn, no_alloc_functions_eq abi cn, List.map_map, List.map_map]
  rfl

/-- C7: in the generated model, every event constant holds the full 32-byte
keccak-256 hash of the event signature, while every function selector
constant and every error constant hold only the first 4 bytes of the
signature's hash. -/
theorem c7_events_full_hash_functions_errors_selector :
    ∀ (abi : List AbiItem) (cn : String),
      (generate_rust_code_no_alloc abi cn).events
        = ((eventItems abi).map fun p => mkEventConst p.1 p.2)
      ∧ (generate_rust_code_no_alloc abi cn).errors
        = ((errorItems abi).map fun p => mkErrorConst p.1 p.2)
      ∧ (generate_rust_code_no_alloc abi cn).selectors
        = ((functionItems abi).map fun p => mkSelectorConst p.1 p.2)
      ∧ (∀ p : String × List AbiInput,
          (mkEventConst p.1 p.2).bytes_hex
            = format_bytes32_multiline (keccak256 (build_function_signature p.1 p.2))
          ∧ (keccak256 (build_function_signature p.1 p.2)).length = 32)
      ∧ (∀ p : String × List AbiInput,
          (mkErrorConst p.1 p.2).bytes_hex
            = format_bytes_as_hex ((keccak256 (build_function_signature p.1 p.2)).take 4))
      ∧ (∀ p : String × List AbiInput,
          (mkSelectorConst p.1 p.2).bytes_hex
            = format_bytes_as_hex ((keccak256 (build_function_signature p.1 p.2)).take 4)) := by
  intro abi cn
  have hsel : ∀ s : String, compute_selector s = (keccak256 s).take 4 := fun s =>
    getD_take_four (keccak256 s) (by rw [keccak256_length]; omega)
  refine ⟨no_alloc_events_eq abi cn, no_alloc_errors_eq abi cn, no_alloc_selectors_eq abi cn,
    fun p => ⟨?_, keccak256_length _⟩, fun p => ?_, fun p => ?_⟩
  · simp only [mkEventConst]
  · simp only [mkErrorConst]
    rw [hsel]
  · simp only [mkSelectorConst]
    rw [hsel]

/-- C4 counterexample: compiling the single-function fibonacci ABI under the
manual strategy yields exactly one per-parameter decode entry, and that
entry is the placeholder comment line `// TODO: decode n of type uint32` —
the generated plan records no `UnsignedInt(32)` decode strategy and no
`[4,36)` byte range (its only per-parameter datum is the comment string). -/
theorem c4_counterexample_decode_step_is_todo_placeholder :
    (generate_rust_code_no_alloc
        [.function "fibonacci" [{ name := "n", type_name := "uint32", indexed := none }]
          [] "view"] "fibonacci").functions
      = [{ name := "fibonacci", selector_const := "FIBONACCI_SELECTOR",
           min_call_data_len := 36,
           params := [{ decode_line := "// TODO: decode n of type uint32" }] }] := by
  decide

/-- C4 (amended): compiling the fibonacci ABI under the manual strategy
produces the signature `"fibonacci(uint32)"`, a selector constant named
`FIBONACCI_SELECTOR` holding the 4 bytes `e4 44 a7 09` of that signature's
keccak-256 hash, `min_call_data_len = 36`, and exactly one per-parameter
decode entry for `n` — a `// TODO` placeholder comment rather than a typed
`UnsignedInt(32)` step with a byte range. -/
theorem c4_fibonacci_manual_model :
    (generate_rust_code_no_alloc
        [.function "fibonacci" [{ name := "n", type_name := "uint32", indexed := none }]
          [] "view"] "fibonacci").selectors
      = [{ const_name := "FIBONACCI_SELECTOR",
           bytes_hex := "0xe4, 0x44, 0xa7, 0x09",
           signature := "fibonacci(uint32)" }]
    ∧ format_bytes_as_hex (compute_selector "fibonacci(uint32)") = "0xe4, 0x44, 0xa7, 0x09"
    ∧ (generate_rust_code_no_alloc
        [.function "fibonacci" [{ name := "n", type_name := "uint32", indexed := none }]
          [] "view"] "fibonacci").functions.map
        (fun f => (f.min_call_data_len, f.params))
      = [(36, [{ decode_line := "// TODO: decode n of type uint32" }])] := by
  refine ⟨by decide, by decide, by decide⟩

/-- C6 counterexample: an ABI item with an empty name is not rejected — the
no-alloc generator returns a complete model in which the empty-named
function was processed into the selector constant `_SELECTOR` with
signature `"(address,uint256)"`; no `EmptySignatureComponent` failure
exists anywhere in the generator. -/
theorem c6_counterexample_empty_name_is_processed :
    (generate_rust_code_no_alloc
        [.function "" [{ name := "to", type_name := "address", indexed := none },
                       { name := "value", type_name := "uint256", indexed := none }]
          [] "nonpayable"] "token").selectors.map (fun s => (s.const_name, s.signature))
      = [("_SELECTOR", "(address,uint256)")] := by
  decide

/-- C6 (amended): the generator has no error path of its own: an item whose
name is empty flows through the signature builder unchanged, producing the
signature `"(type1,...)"` and the selector constant name `_SELECTOR`, and a
full (not partial, not failed) model is returned. -/
theorem c6_empty_name_accepted :
    ∀ (inputs : List AbiInput) (outputs : List AbiOutput) (sm cn : String),
      (generate_rust_code_no_alloc [.function "" inputs outputs sm] cn).selectors
        = [mkSelectorConst "" inputs]
      ∧ (mkSelectorConst "" inputs).signature
          = "(" ++ String.intercalate "," (inputs.map fun i => i.type_name) ++ ")"
      ∧ (mkSelectorConst "" inputs).const_name = "_SELECTOR" := by
  intro inputs outputs sm cn
  refine ⟨?_, ?_, ?_⟩
  · rw [no_alloc_selectors_eq]
    rfl
  · show build_function_signature "" inputs = _
    rw [build_function_signature]
    rw [show ("" ++ "(" : String) = "(" from by decide]
  · simp only [mkSelectorConst]
    decide

/-- C8: identifier normalization is idempotent — re-normalizing any
snake_case output returns it unchanged, and a name already in PascalCase
shape (capitalized words with visible boundaries) is left untouched by
PascalCase normalization; in particular `"my_function"` snake-cases to
itself twice over, and `"MyFunction"` is a PascalCase no-op. -/
theorem c8_normalization_idempotent :
    (∀ s : String, toSnake (toSnake s) = toSnake s)
    ∧ (∀ s : String, isPascalCased s = true → toPascal s = s)
    ∧ toSnake "my_function" = "my_function"
    ∧ toSnake (toSnake "my_function") = "my_function"
    ∧ toPascal "MyFunction" = "MyFunction" :=
  ⟨toSnake_idem, toPascal_of_pascalCased, by decide, by decide, by decide⟩

/-- Witness for C8 at the concrete input `"MyFunction"`. -/
theorem c8_normalization_idempotent_witness :
    isPascalCased "MyFunction" = true ∧ toPascal "MyFunction" = "MyFunction" :=
  ⟨by decide, c8_normalization_idempotent.2.1 "MyFunction" (by decide)⟩

/-- C9 counterexample: for the purely numeric function name `"123"` the
generated selector constant is named `123_SELECTOR`, which begins with the
digit `1` — no leading-underscore (or any other) prefix is applied, so the
emitted identifier is not a legal Rust identifier. -/
theorem c9_counterexample_numeric_name_keeps_leading_digit :
    (generate_rust_code_no_alloc [.function "123" [] [] "nonpayable"] "c").selectors.map
        (fun s => s.const_name) = ["123_SELECTOR"]
    ∧ isDigitC (("123_SELECTOR" : String).data.headD ' ') = true := by
  refine ⟨by decide, by decide⟩

/-- C9 (amended): for every purely numeric (nonempty, all digits) item
name, the generated constant name is the name itself followed by
`_SELECTOR`, hence still begins with a digit: no prefix strategy exists in
the generator. -/
theorem c9_numeric_name_unprefixed :
    ∀ (name : String) (inputs : List AbiInput),
      name.data ≠ [] → (∀ c ∈ name.data, isDigitC c = true) →
      (mkSelectorConst name inputs).const_name = name ++ "_SELECTOR"
      ∧ isDigitC ((mkSelectorConst name inputs).const_name.data.headD ' ') = true := by
  intro name inputs hne hdig
  have hus := toUpperSnake_digits name hne hdig
  have hcn : (mkSelectorConst name inputs).const_name = name ++ "_SELECTOR" := by
    simp only [mkSelectorConst]
    rw [hus]
  refine ⟨hcn, ?_⟩
  rw [hcn, String.data_append]
  rcases hd : name.data with _ | ⟨c, t⟩
  · exact absurd hd hne
  · simpa using hdig c (by rw [hd]; simp)

/-- Witness for C9 (amended) at the concrete numeric name `"123"`. -/
theorem c9_numeric_name_unprefixed_witness :
    ("123" : String).data ≠ [] ∧ (∀ c ∈ ("123" : String).data, isDigitC c = true)
    ∧ (mkSelectorConst "123" []).const_name = "123" ++ "_SELECTOR"
    ∧ isDigitC ((mkSelectorConst "123" []).const_name.data.headD ' ') = true :=
  ⟨by decide, by decide,
   (c9_numeric_name_unprefixed "123" [] (by decide) (by decide)).1,
   (c9_numeric_name_unprefixed "123" [] (by decide) (by decide)).2⟩
end PvmScaffold
